import Mathlib

/-!
Shallow embedding of the AWS Polly TTS wrapper (backend/polly_tts.py,
backend/polly.py, backend/api.py): text chunking, voice selection,
engine resolution and the synthesis driver, with proofs of the
specified properties.

Strings are modelled as lists of characters; Python `text[start:end]`
windows become `take`/`drop` on the suffix of text not yet consumed.
Optional string parameters use `Option String`, with Python truthiness
(both `None` and the empty string are falsy) made explicit.
-/

set_option maxHeartbeats 1000000

/-- Python truthiness of an optional string: `None` and `""` are falsy. -/
def truthy : Option String → Bool
  | none => false
  | some s => !(s == "")

/-! ## Text chunker (PollyTTS._chunk_text) -/

/-- `matchAt s pat i` holds when the substring of `s` starting at index `i`
equals `pat` (the occurrence must lie fully inside `s`, as for Python
`str.rfind`). -/
def matchAt (s pat : List Char) (i : Nat) : Bool :=
  (s.drop i).take pat.length == pat

/-- Greatest index `i < n` with `matchAt s pat i`, or `-1` when there is
none: the search kernel of Python `str.rfind`. -/
def rfindAux (s pat : List Char) : Nat → Int
  | 0 => -1
  | n + 1 => if matchAt s pat n then (n : Int) else rfindAux s pat n

/-- Python `s.rfind(pat)`: the greatest index at which `pat` occurs in `s`
(occurrences fully inside `s`), or `-1` when it does not occur. -/
def pyRfind (s pat : List Char) : Int :=
  rfindAux s pat (s.length + 1)

/-- The break position used by `_chunk_text` on a window:
`max(slice.rfind("\n"), slice.rfind(". "), slice.rfind(" "))`. -/
def lastBreak (slice : List Char) : Int :=
  max (pyRfind slice ['\n']) (max (pyRfind slice ['.', ' ']) (pyRfind slice [' ']))

/-- The `while start < len(text)` loop of `_chunk_text`, expressed on the
suffix of the text not yet consumed (`rest = text[start:]`); `fuel`
bounds the number of iterations; `rest.length` iterations always
suffice when `0 < maxLen`, since every iteration consumes at least one
character (see `chunkLoop_join`). Each iteration takes the
window `rest.take maxLen`; when the window does not reach the end of
the text and the break position is positive, it cuts just after the
break instead. -/
def chunkLoop (maxLen : Nat) : Nat → List Char → List (List Char)
  | 0, _ => []
  | fuel + 1, rest =>
    if maxLen < rest.length then
      let slice := rest.take maxLen
      let lb := lastBreak slice
      if 0 < lb then
        rest.take (lb.toNat + 1) :: chunkLoop maxLen fuel (rest.drop (lb.toNat + 1))
      else
        slice :: chunkLoop maxLen fuel (rest.drop maxLen)
    else if rest = [] then [] else [rest]

/-- `PollyTTS._chunk_text(text, max_len)`: returns `[text]` when the text
already fits, otherwise runs the chunking loop from position 0. -/
def chunk_text (text : List Char) (maxLen : Nat) : List (List Char) :=
  if text.length ≤ maxLen then [text] else chunkLoop maxLen text.length text

/-- The break position as the spec describes it, following the spec words:
the last newline; only if there is no newline at a positive offset, the
last `". "`; only if neither, the last plain space — the three
candidates tried in that priority order, each used when found at a
positive offset. Stated for comparison with the source's `lastBreak`,
which instead takes the maximum of the three positions. -/
def priorityBreak (slice : List Char) : Int :=
  if 0 < pyRfind slice ['\n'] then pyRfind slice ['\n']
  else if 0 < pyRfind slice ['.', ' '] then pyRfind slice ['.', ' ']
  else if 0 < pyRfind slice [' '] then pyRfind slice [' ']
  else -1

/-- The chunking loop as the spec describes it: identical to `chunkLoop`
except that the cut position is chosen by `priorityBreak`. -/
def chunkLoopPriority (maxLen : Nat) : Nat → List Char → List (List Char)
  | 0, _ => []
  | fuel + 1, rest =>
    if maxLen < rest.length then
      let slice := rest.take maxLen
      let lb := priorityBreak slice
      if 0 < lb then
        rest.take (lb.toNat + 1) :: chunkLoopPriority maxLen fuel (rest.drop (lb.toNat + 1))
      else
        slice :: chunkLoopPriority maxLen fuel (rest.drop maxLen)
    else if rest = [] then [] else [rest]

/-- The chunker as the spec describes it (priority order among break
candidates), for comparison with the source's `chunk_text`. -/
def chunk_text_priority (text : List Char) (maxLen : Nat) : List (List Char) :=
  if text.length ≤ maxLen then [text] else chunkLoopPriority maxLen text.length text

/-! ## Voice data model and catalog -/

/-- A voice record from the remote catalog. Missing dictionary keys in the
Python source default to `""` (Gender) and `[]` (SupportedEngines), so
plain fields suffice. -/
structure Voice where
  id : String
  gender : String
  languageCode : String
  supportedEngines : List String
  deriving Repr, DecidableEq

/-- The remote catalog: the voice list the service returns for a given
`LanguageCode` filter (`none` = unfiltered global listing). -/
abbrev Catalog : Type := Option String → List Voice

/-- `PollyTTS.list_voices(language_code)`: the `LanguageCode` parameter is
only sent when the argument is truthy. -/
def list_voices (catalog : Catalog) (language_code : Option String) : List Voice :=
  if truthy language_code then catalog language_code else catalog none

/-- The gender filter of `select_voice`: applied only when `gender` is
truthy; keeps voices whose `Gender` matches case-insensitively after
stripping the argument. -/
def genderFilter (gender : Option String) (vs : List Voice) : List Voice :=
  if truthy gender then
    vs.filter (fun v => v.gender.toLower == ((gender.getD "").trim.toLower))
  else vs

/-- Does a voice support the neural engine (case-insensitive membership)? -/
def supportsNeural (v : Voice) : Bool :=
  v.supportedEngines.any (fun e => e.toLower == "neural")

/-- The candidate-picking tail of `select_voice`: first voice supporting
neural, else the first candidate, else the fixed default `"Joanna"`. -/
def pickVoice (vs : List Voice) : String :=
  match vs.find? supportsNeural with
  | some v => v.id
  | none =>
    match vs with
    | v :: _ => v.id
    | [] => "Joanna"

/-- The catalog-driven part of `select_voice` (after the preferred-id
check): language filter, gender filter, global fallback when empty,
then candidate picking. -/
def selectFromCatalog (catalog : Catalog) (gender language_code : Option String) : String :=
  let voices := genderFilter gender (list_voices catalog language_code)
  let voices :=
    if voices.isEmpty then genderFilter gender (list_voices catalog none)
    else voices
  pickVoice voices

/-- The fallback behaviour as the spec describes it, following the spec
words: on the unfiltered global catalog, re-apply only the gender
filter; return the first candidate whose supported-engine set contains
`"neural"` (case-insensitive), otherwise the first candidate in catalog
order, otherwise the fixed default voice id `"Joanna"`. -/
def resolveVoiceFallbackSpec (globalCatalog : List Voice) (gender : Option String) : String :=
  let candidates :=
    if truthy gender then
      globalCatalog.filter (fun v => v.gender.toLower == ((gender.getD "").trim.toLower))
    else globalCatalog
  match candidates.find? (fun v => v.supportedEngines.any (fun e => e.toLower == "neural")) with
  | some v => v.id
  | none =>
    match candidates with
    | v :: _ => v.id
    | [] => "Joanna"

/-- `PollyTTS.select_voice(preferred_voice_id, gender, language_code)`. -/
def select_voice (catalog : Catalog) (preferred gender language_code : Option String) : String :=
  match preferred with
  | some p => if p == "" then selectFromCatalog catalog gender language_code else p
  | none => selectFromCatalog catalog gender language_code

/-! ## Engine resolution (backend/api.py synthesize endpoint) -/

/-- The engine preference applied by the endpoint when it must choose:
`"neural" if "neural" in supported else ("standard" if "standard" in
supported else None)`. -/
def enginePreference (supported : List String) : Option String :=
  if supported.contains "neural" then some "neural"
  else if supported.contains "standard" then some "standard"
  else none

/-- The engine-resolution block of the `/synthesize` endpoint, given the
successfully fetched global catalog: finds the resolved voice in the
catalog; when present, lowercases its supported engines and either
clears the engine (no supported engines), keeps a supported requested
engine, or substitutes the neural/standard preference. -/
def resolveEngine (catalog : List Voice) (voiceId : String) (engine : Option String) : Option String :=
  match catalog.find? (fun v => v.id == voiceId) with
  | none => engine
  | some v =>
    let supported := v.supportedEngines.map (fun e => e.toLower)
    if supported.isEmpty then none
    else if truthy engine && !(supported.contains ((engine.getD "").toLower)) then
      if supported.contains "neural" then some "neural"
      else if supported.contains "standard" then some "standard"
      else none
    else if !(truthy engine) then
      if supported.contains "neural" then some "neural"
      else if supported.contains "standard" then some "standard"
      else none
    else engine

/-- The whole `try/except` around engine resolution: a failing catalog
lookup falls back to the caller-supplied engine unmodified. -/
def resolveEngineSafe (lookup : Except String (List Voice)) (voiceId : String)
    (engine : Option String) : Option String :=
  match lookup with
  | Except.error _ => engine
  | Except.ok catalog => resolveEngine catalog voiceId engine

/-! ## Synthesis driver (PollyTTS.synthesize) -/

/-- The parameter dictionary built by `PollyTTS.synthesize` for each
`synthesize_speech` call (keys that Python omits are `none`). -/
structure SynthParams where
  outputFormat : String
  voiceId : String
  engine : Option String
  languageCode : Option String
  sampleRate : Option String
  textType : Option String
  deriving Repr, DecidableEq

/-- The validation error message of `PollyTTS.synthesize`. -/
def formatErrMsg : String := "output_format must be mp3, ogg_vorbis, or pcm"

/-- `PollyTTS.synthesize`: validates the output format before anything
else, builds the call parameters, then issues one remote call per chunk
of the text, in order. The remote service is abstracted as `client`;
a raised `ValueError` is the `Except.error` branch. -/
def synthesize (client : List Char → SynthParams → List Nat) (text : List Char)
    (voice_id output_format : String) (engine language_code : Option String)
    (sample_rate : Option Nat) (text_type : String) : Except String (List (List Nat)) :=
  if !(output_format == "mp3" || output_format == "ogg_vorbis" || output_format == "pcm") then
    Except.error formatErrMsg
  else
    let params : SynthParams :=
      { outputFormat := output_format
        voiceId := voice_id
        engine := if truthy engine then engine else none
        languageCode := if truthy language_code then language_code else none
        sampleRate := sample_rate.map (fun n => toString n)
        textType := if text_type == "text" || text_type == "ssml" then some text_type else none }
    Except.ok ((chunk_text text 2900).map (fun c => client c params))

/-- A break candidate of the chunking window at index `i`: a newline, a
`". "` sentence end, or a plain space occurring there. -/
def isBreakAt (w : List Char) (i : Nat) : Prop :=
  matchAt w ['\n'] i = true ∨ matchAt w ['.', ' '] i = true ∨ matchAt w [' '] i = true

/-- A demonstration voice used by concrete witnesses. -/
def demoVoice : Voice :=
  { id := "Joanna", gender := "Female", languageCode := "en-US", supportedEngines := ["neural"] }

/-- A demonstration catalog: empty for every language filter, two voices
globally; used by concrete witnesses. -/
def demoCatalog : Catalog := fun o =>
  match o with
  | some _ => []
  | none =>
    [{ id := "Matthew", gender := "Male", languageCode := "en-US",
       supportedEngines := ["standard"] },
     demoVoice]

/-- A single-voice catalog whose voice id is non-empty; used by concrete
witnesses. -/
def joannaOnlyCatalog : Catalog := fun _ => [demoVoice]

/-- A pathological catalog containing a voice whose id is the empty
string. -/
def emptyIdCatalog : Catalog := fun _ =>
  [{ id := "", gender := "Female", languageCode := "en-US", supportedEngines := [] }]

/-! ## Lemmas about the rfind model -/

theorem rfindAux_lt (s pat : List Char) (n : Nat) : rfindAux s pat n < (n : Int) := by
  induction n with
  | zero => simp [rfindAux]
  | succ n ih =>
    simp only [rfindAux]
    split
    · push_cast; omega
    · have : (n : Int) < (n : Int) + 1 := by omega
      calc rfindAux s pat n < (n : Int) := ih
        _ < ((n + 1 : Nat) : Int) := by push_cast; omega

theorem rfindAux_match (s pat : List Char) (n : Nat) (h : 0 ≤ rfindAux s pat n) :
    matchAt s pat (rfindAux s pat n).toNat = true := by
  induction n with
  | zero => simp [rfindAux] at h
  | succ n ih =>
    simp only [rfindAux] at h ⊢
    by_cases hm : matchAt s pat n
    · rw [if_pos hm]
      simpa using hm
    · rw [if_neg hm] at h ⊢
      exact ih h

theorem le_rfindAux_of_match (s pat : List Char) {j n : Nat} (hj : j < n)
    (hm : matchAt s pat j = true) : (j : Int) ≤ rfindAux s pat n := by
  induction n with
  | zero => omega
  | succ n ih =>
    simp only [rfindAux]
    rcases Nat.lt_succ_iff_lt_or_eq.mp hj with h | h
    · split
      · exact_mod_cast Nat.le_of_lt h
      · exact ih h
    · subst h
      rw [if_pos hm]

theorem matchAt_lt_length {s pat : List Char} {i : Nat} (hp : pat ≠ [])
    (h : matchAt s pat i = true) : i < s.length := by
  have he : (s.drop i).take pat.length = pat := by simpa [matchAt] using h
  have hlen : ((s.drop i).take pat.length).length = pat.length := by rw [he]
  have hmin : min pat.length (s.length - i) = pat.length := by
    simpa [List.length_take, List.length_drop] using hlen
  have hplen : 0 < pat.length := List.length_pos.mpr hp
  omega

theorem pyRfind_lt_length (s pat : List Char) (hp : pat ≠ []) :
    pyRfind s pat < (s.length : Int) := by
  rcases le_or_lt 0 (pyRfind s pat) with h | h
  · have hm := rfindAux_match s pat (s.length + 1) h
    have := matchAt_lt_length hp hm
    unfold pyRfind at *
    omega
  · omega

theorem le_pyRfind_of_match (s pat : List Char) {j : Nat} (hp : pat ≠ [])
    (hm : matchAt s pat j = true) : (j : Int) ≤ pyRfind s pat := by
  have hj : j < s.length + 1 := by
    have := matchAt_lt_length hp hm
    omega
  exact le_rfindAux_of_match s pat hj hm

/-! ## Lemmas about the break position -/

theorem lastBreak_lt_length (slice : List Char) : lastBreak slice < (slice.length : Int) := by
  unfold lastBreak
  have h1 := pyRfind_lt_length slice ['\n'] (by simp)
  have h2 := pyRfind_lt_length slice ['.', ' '] (by simp)
  have h3 := pyRfind_lt_length slice [' '] (by simp)
  omega

theorem le_lastBreak_of_isBreakAt {w : List Char} {i : Nat} (h : isBreakAt w i) :
    (i : Int) ≤ lastBreak w := by
  unfold lastBreak
  rcases h with h | h | h
  · have := le_pyRfind_of_match w ['\n'] (by simp) h
    omega
  · have := le_pyRfind_of_match w ['.', ' '] (by simp) h
    omega
  · have := le_pyRfind_of_match w [' '] (by simp) h
    omega

theorem isBreakAt_lastBreak {w : List Char} (h : 0 ≤ lastBreak w) :
    isBreakAt w (lastBreak w).toNat := by
  unfold lastBreak at h ⊢
  rcases max_choice (pyRfind w ['\n']) (max (pyRfind w ['.', ' ']) (pyRfind w [' '])) with h1 | h1 <;>
    rw [h1] at h ⊢
  · exact Or.inl (rfindAux_match w ['\n'] _ h)
  · rcases max_choice (pyRfind w ['.', ' ']) (pyRfind w [' ']) with h2 | h2 <;> rw [h2] at h ⊢
    · exact Or.inr (Or.inl (rfindAux_match w ['.', ' '] _ h))
    · exact Or.inr (Or.inr (rfindAux_match w [' '] _ h))

/-! ## Lemmas about the chunking loop -/

theorem chunkLoop_join (maxLen : Nat) (hm : 0 < maxLen) :
    ∀ fuel (rest : List Char), rest.length ≤ fuel →
      (chunkLoop maxLen fuel rest).flatten = rest := by
  intro fuel
  induction fuel with
  | zero =>
    intro rest h
    have : rest = [] := List.eq_nil_of_length_eq_zero (Nat.le_zero.mp h)
    subst this
    simp [chunkLoop]
  | succ fuel ih =>
    intro rest h
    simp only [chunkLoop]
    by_cases hlt : maxLen < rest.length
    · rw [if_pos hlt]
      have hslice : (rest.take maxLen).length = maxLen := by
        rw [List.length_take]
        omega
      by_cases hlb : 0 < lastBreak (rest.take maxLen)
      · rw [if_pos hlb]
        have hk : (rest.drop ((lastBreak (rest.take maxLen)).toNat + 1)).length ≤ fuel := by
          rw [List.length_drop]
          omega
        simp only [List.flatten_cons, ih _ hk, List.take_append_drop]
      · rw [if_neg hlb]
        have hk : (rest.drop maxLen).length ≤ fuel := by
          rw [List.length_drop]
          omega
        simp only [List.flatten_cons, ih _ hk, List.take_append_drop]
    · rw [if_neg hlt]
      by_cases hn : rest = []
      · simp [hn]
      · rw [if_neg hn]
        simp

theorem chunkLoop_length_le (maxLen : Nat) :
    ∀ fuel (rest : List Char), ∀ c ∈ chunkLoop maxLen fuel rest, c.length ≤ maxLen := by
  intro fuel
  induction fuel with
  | zero =>
    intro rest c hc
    simp [chunkLoop] at hc
  | succ fuel ih =>
    intro rest c hc
    simp only [chunkLoop] at hc
    by_cases hlt : maxLen < rest.length
    · rw [if_pos hlt] at hc
      have hslice : (rest.take maxLen).length = maxLen := by
        rw [List.length_take]
        omega
      have hlbl := lastBreak_lt_length (rest.take maxLen)
      rw [hslice] at hlbl
      by_cases hlb : 0 < lastBreak (rest.take maxLen)
      · rw [if_pos hlb] at hc
        rcases List.mem_cons.mp hc with h | h
        · subst h
          rw [List.length_take]
          omega
        · exact ih _ _ h
      · rw [if_neg hlb] at hc
        rcases List.mem_cons.mp hc with h | h
        · subst h
          rw [List.length_take]
          omega
        · exact ih _ _ h
    · rw [if_neg hlt] at hc
      by_cases hn : rest = []
      · rw [if_pos hn] at hc
        simp at hc
      · rw [if_neg hn] at hc
        rcases List.mem_singleton.mp hc with h
        subst h
        omega

theorem chunk_text_head (text : List Char) (maxLen : Nat) (hl : maxLen < text.length) :
    (chunk_text text maxLen).head? =
      some (if 0 < lastBreak (text.take maxLen)
            then text.take ((lastBreak (text.take maxLen)).toNat + 1)
            else text.take maxLen) := by
  unfold chunk_text
  rw [if_neg (by omega)]
  obtain ⟨n, hn⟩ : ∃ n, text.length = n + 1 := ⟨text.length - 1, by omega⟩
  rw [hn]
  simp only [chunkLoop]
  rw [if_pos (by omega : maxLen < text.length)]
  by_cases hlb : 0 < lastBreak (text.take maxLen)
  · rw [if_pos hlb, if_pos hlb]
    rfl
  · rw [if_neg hlb, if_neg hlb]
    rfl

/-! ## Claim theorems: text chunker -/

/-- C1: for every text and every positive maxLen, concatenating the
elements of `chunk_text text maxLen` in order reconstructs the input
text exactly — no characters dropped or duplicated. -/
theorem chunk_text_roundtrip (text : List Char) (maxLen : Nat) (hm : 0 < maxLen) :
    (chunk_text text maxLen).flatten = text := by
  unfold chunk_text
  by_cases h : text.length ≤ maxLen
  · rw [if_pos h]
    simp
  · rw [if_neg h]
    exact chunkLoop_join maxLen hm text.length text le_rfl

/-- Witness for C1 at a concrete input. -/
theorem chunk_text_roundtrip_witness :
    0 < 3 ∧ (chunk_text ("ab cd ef".data) 3).flatten = "ab cd ef".data :=
  ⟨by decide, chunk_text_roundtrip ("ab cd ef".data) 3 (by decide)⟩

/-- C6: for every non-empty text and every positive maxLen, the chunker
returns a non-empty sequence and no returned element is longer than
maxLen characters. -/
theorem chunk_text_nonempty_and_bounded (text : List Char) (maxLen : Nat)
    (hne : text ≠ []) (hm : 0 < maxLen) :
    chunk_text text maxLen ≠ [] ∧ ∀ c ∈ chunk_text text maxLen, c.length ≤ maxLen := by
  constructor
  · unfold chunk_text
    by_cases h : text.length ≤ maxLen
    · rw [if_pos h]
      simp
    · rw [if_neg h]
      obtain ⟨n, hn⟩ : ∃ n, text.length = n + 1 := ⟨text.length - 1, by
        have := List.length_pos.mpr hne
        omega⟩
      rw [hn]
      simp only [chunkLoop]
      rw [if_pos (by omega : maxLen < text.length)]
      by_cases hlb : 0 < lastBreak (text.take maxLen)
      · rw [if_pos hlb]
        simp
      · rw [if_neg hlb]
        simp
  · intro c hc
    unfold chunk_text at hc
    by_cases h : text.length ≤ maxLen
    · rw [if_pos h] at hc
      rcases List.mem_singleton.mp hc with rfl
      omega
    · rw [if_neg h] at hc
      exact chunkLoop_length_le maxLen text.length text c hc

/-- Witness for C6 at a concrete input. -/
theorem chunk_text_nonempty_and_bounded_witness :
    "ab cd ef".data ≠ [] ∧ 0 < 3 ∧
      (chunk_text ("ab cd ef".data) 3 ≠ [] ∧
        ∀ c ∈ chunk_text ("ab cd ef".data) 3, c.length ≤ 3) :=
  ⟨by decide, by decide, chunk_text_nonempty_and_bounded ("ab cd ef".data) 3 (by decide) (by decide)⟩

/-- C7: for every text with length at most maxLen, the chunker returns a
single-element sequence whose element is the input text. -/
theorem chunk_text_short_input (text : List Char) (maxLen : Nat)
    (h : text.length ≤ maxLen) : chunk_text text maxLen = [text] := by
  unfold chunk_text
  rw [if_pos h]

/-- Witness for C7 at a concrete input. -/
theorem chunk_text_short_input_witness :
    "hi".data.length ≤ 5 ∧ chunk_text ("hi".data) 5 = ["hi".data] :=
  ⟨by decide, chunk_text_short_input ("hi".data) 5 (by decide)⟩

/-- C2 counterexample: the chunker does not try the three break candidates
in priority order (newline first). On the text "a\nb c d" with maxLen 5
the window "a\nb c" contains a newline at positive offset 1, yet the
code cuts at the later plain space (offset 3), producing "a\nb " —
whereas the priority policy described by the claim would cut at the
newline and produce "a\n". -/
theorem chunk_break_priority_counterexample :
    chunk_text ("a\nb c d".data) 5 = ["a\nb ".data, "c d".data] ∧
    chunk_text_priority ("a\nb c d".data) 5 = ["a\n".data, "b c d".data] ∧
    chunk_text ("a\nb c d".data) 5 ≠ chunk_text_priority ("a\nb c d".data) 5 := by
  refine ⟨by decide, by decide, by decide⟩

/-- C2 (amended): when the window does not reach the end of the text, the
chunker cuts at the LATEST break candidate in the window — the greatest
index carrying a newline, a ". " sentence end, or a plain space, with
no priority among the three kinds — whenever that index is positive,
and cuts exactly at maxLen only when no break candidate exists at a
positive offset. -/
theorem chunk_break_at_latest_candidate (text : List Char) (maxLen : Nat)
    (hm : 0 < maxLen) (hl : maxLen < text.length) :
    ((∃ i, 0 < i ∧ isBreakAt (text.take maxLen) i) →
      ∃ m, 0 < m ∧ isBreakAt (text.take maxLen) m ∧
        (∀ j, isBreakAt (text.take maxLen) j → j ≤ m) ∧
        (chunk_text text maxLen).head? = some (text.take (m + 1))) ∧
    ((∀ i, isBreakAt (text.take maxLen) i → i = 0) →
      (chunk_text text maxLen).head? = some (text.take maxLen)) := by
  constructor
  · rintro ⟨i, hi, hbi⟩
    have hle := le_lastBreak_of_isBreakAt hbi
    have hpos : 0 < lastBreak (text.take maxLen) := by omega
    refine ⟨(lastBreak (text.take maxLen)).toNat, by omega,
      isBreakAt_lastBreak (le_of_lt hpos), ?_, ?_⟩
    · intro j hbj
      have := le_lastBreak_of_isBreakAt hbj
      omega
    · rw [chunk_text_head text maxLen hl, if_pos hpos]
  · intro hno
    have hnpos : ¬ 0 < lastBreak (text.take maxLen) := by
      intro hpos
      have hb := isBreakAt_lastBreak (le_of_lt hpos)
      have := hno _ hb
      omega
    rw [chunk_text_head text maxLen hl, if_neg hnpos]

/-- Witness for the amended C2 at a concrete input. -/
theorem chunk_break_at_latest_candidate_witness :
    0 < 5 ∧ 5 < "ab cd ef".data.length ∧
      (((∃ i, 0 < i ∧ isBreakAt ("ab cd ef".data.take 5) i) →
        ∃ m, 0 < m ∧ isBreakAt ("ab cd ef".data.take 5) m ∧
          (∀ j, isBreakAt ("ab cd ef".data.take 5) j → j ≤ m) ∧
          (chunk_text ("ab cd ef".data) 5).head? = some ("ab cd ef".data.take (m + 1))) ∧
      ((∀ i, isBreakAt ("ab cd ef".data.take 5) i → i = 0) →
        (chunk_text ("ab cd ef".data) 5).head? = some ("ab cd ef".data.take 5))) :=
  ⟨by decide, by decide, chunk_break_at_latest_candidate ("ab cd ef".data) 5 (by decide) (by decide)⟩

/-! ## Lemmas about voice selection -/

theorem pickVoice_eq_default_or_mem (vs : List Voice) :
    pickVoice vs = "Joanna" ∨ ∃ v, v ∈ vs ∧ pickVoice vs = v.id := by
  unfold pickVoice
  cases hf : vs.find? supportsNeural with
  | some v => exact Or.inr ⟨v, List.mem_of_find?_eq_some hf, rfl⟩
  | none =>
    cases vs with
    | nil => exact Or.inl rfl
    | cons v t => exact Or.inr ⟨v, List.mem_cons_self v t, rfl⟩

theorem genderFilter_mem {gender : Option String} {vs : List Voice} {v : Voice}
    (h : v ∈ genderFilter gender vs) : v ∈ vs := by
  unfold genderFilter at h
  split at h
  · exact List.mem_of_mem_filter h
  · exact h

theorem list_voices_mem {catalog : Catalog} {lc : Option String} {v : Voice}
    (h : v ∈ list_voices catalog lc) : v ∈ catalog lc ∨ v ∈ catalog none := by
  unfold list_voices at h
  split at h
  · exact Or.inl h
  · exact Or.inr h

theorem selectFromCatalog_ne_empty (catalog : Catalog) (gender language_code : Option String)
    (hids : ∀ o v, v ∈ catalog o → v.id ≠ "") :
    selectFromCatalog catalog gender language_code ≠ "" := by
  simp only [selectFromCatalog]
  rcases pickVoice_eq_default_or_mem
      (if (genderFilter gender (list_voices catalog language_code)).isEmpty
       then genderFilter gender (list_voices catalog none)
       else genderFilter gender (list_voices catalog language_code)) with h | ⟨v, hv, h⟩
  · rw [h]
    decide
  · rw [h]
    have hvmem : v ∈ catalog language_code ∨ v ∈ catalog none := by
      split at hv
      · rcases list_voices_mem (genderFilter_mem hv) with h1 | h1 <;> exact Or.inr h1
      · exact list_voices_mem (genderFilter_mem hv)
    rcases hvmem with h1 | h1
    · exact hids _ _ h1
    · exact hids _ _ h1

/-! ## Claim theorems: voice selection -/

/-- C5: for every non-empty preferred voice id and every catalog state,
select_voice returns the preferred id unchanged, without consulting the
catalog (the result does not depend on the catalog at all). -/
theorem select_voice_preferred_passthrough (p : String) (hp : p ≠ "")
    (catalog : Catalog) (gender language_code : Option String) :
    select_voice catalog (some p) gender language_code = p := by
  have hb : (p == "") = false := beq_eq_false_iff_ne.mpr hp
  simp [select_voice, hb]

/-- Witness for C5 at a concrete input. -/
theorem select_voice_preferred_passthrough_witness :
    "Matthew" ≠ "" ∧ select_voice (fun _ => []) (some "Matthew") none none = "Matthew" :=
  ⟨by decide, select_voice_preferred_passthrough "Matthew" (by decide) (fun _ => []) none none⟩

/-- C3: when no preferred voice id is given and the gender filter applied
to the language-filtered voice list yields an empty set, select_voice
re-fetches the unfiltered global catalog, re-applies only the gender
filter, and picks the first neural-supporting candidate
(case-insensitive), else the first candidate in catalog order, else the
fixed default voice id "Joanna" — exactly the spec-side
resolveVoiceFallbackSpec applied to the global catalog. -/
theorem select_voice_global_fallback (catalog : Catalog) (gender language_code : Option String)
    (hempty : genderFilter gender (list_voices catalog language_code) = []) :
    select_voice catalog none gender language_code =
      resolveVoiceFallbackSpec (catalog none) gender := by
  simp only [select_voice, selectFromCatalog, hempty, List.isEmpty_nil, if_true]
  rfl

/-- Witness for C3 at a concrete input. -/
theorem select_voice_global_fallback_witness :
    genderFilter (some "female") (list_voices demoCatalog (some "fr-FR")) = [] ∧
      select_voice demoCatalog none (some "female") (some "fr-FR") =
        resolveVoiceFallbackSpec (demoCatalog none) (some "female") :=
  ⟨by decide, select_voice_global_fallback demoCatalog (some "female") (some "fr-FR") (by decide)⟩

/-- C10 counterexample: on a catalog containing a voice whose id is the
empty string, select_voice with the empty-string hint does return the
empty string, so the claim as universally stated over catalogs fails. -/
theorem select_voice_empty_hint_counterexample :
    select_voice emptyIdCatalog (some "") none none = "" := by decide

/-- C10 (amended): the empty-string hint is treated as absent — resolution
falls through to exactly the catalog-based selection performed with no
hint — and, provided every voice id in the catalog is non-empty, the
result is never the empty string (the default "Joanna" is non-empty). -/
theorem select_voice_empty_hint_falls_through (catalog : Catalog)
    (gender language_code : Option String)
    (hids : ∀ o v, v ∈ catalog o → v.id ≠ "") :
    select_voice catalog (some "") gender language_code =
      select_voice catalog none gender language_code ∧
    select_voice catalog (some "") gender language_code ≠ "" := by
  constructor
  · rfl
  · have he : select_voice catalog (some "") gender language_code =
        selectFromCatalog catalog gender language_code := rfl
    rw [he]
    exact selectFromCatalog_ne_empty catalog gender language_code hids

/-- Witness for the amended C10 at a concrete input. -/
theorem select_voice_empty_hint_falls_through_witness :
    (∀ o v, v ∈ joannaOnlyCatalog o → v.id ≠ "") ∧
      (select_voice joannaOnlyCatalog (some "") none none =
        select_voice joannaOnlyCatalog none none none ∧
       select_voice joannaOnlyCatalog (some "") none none ≠ "") := by
  have hids : ∀ o v, v ∈ joannaOnlyCatalog o → v.id ≠ "" := by
    intro o v hv
    simp only [joannaOnlyCatalog, List.mem_singleton] at hv
    subst hv
    decide
  exact ⟨hids, select_voice_empty_hint_falls_through joannaOnlyCatalog none none hids⟩

/-! ## Claim theorems: engine resolution and synthesis driver -/

/-- C4: for every catalog in which the resolved voice is present — the
first catalog entry matching the voice id is `v` — engine resolution
yields none when `v` supports no engines, for any requested engine;
silently substitutes the neural-else-standard-else-none preference when
a requested engine is not in `v`'s supported set (case-insensitive);
and applies the same preference when no engine is requested. -/
theorem resolveEngine_substitution (catalog : List Voice) (voiceId : String) (v : Voice)
    (hfind : catalog.find? (fun w => w.id == voiceId) = some v) :
    (v.supportedEngines = [] → ∀ req, resolveEngine catalog voiceId req = none) ∧
    (∀ e : String,
        (v.supportedEngines.map (fun s => s.toLower)).contains (e.toLower) = false →
        resolveEngine catalog voiceId (some e) =
          enginePreference (v.supportedEngines.map (fun s => s.toLower))) ∧
    resolveEngine catalog voiceId none =
      enginePreference (v.supportedEngines.map (fun s => s.toLower)) := by
  refine ⟨?_, ?_, ?_⟩
  · intro he req
    simp [resolveEngine, hfind, he]
  · intro e hce
    by_cases hemp : (v.supportedEngines.map (fun s => s.toLower)).isEmpty
    · have hnil : v.supportedEngines.map (fun s => s.toLower) = [] := by
        simpa using hemp
      simp [resolveEngine, hfind, hnil, enginePreference]
    · simp only [resolveEngine, hfind]
      rw [if_neg hemp]
      have hgd : ((some e).getD "") = e := rfl
      rw [hgd]
      by_cases he0 : e = ""
      · subst he0
        have ht0 : truthy (some "") = false := rfl
        rw [ht0, Bool.false_and, if_neg Bool.false_ne_true, Bool.not_false,
          if_pos (rfl : true = true)]
        rfl
      · have ht : truthy (some e) = true := by simp [truthy, he0]
        rw [ht, hce, Bool.not_false, Bool.true_and, if_pos (rfl : true = true)]
        rfl
  · by_cases hemp : (v.supportedEngines.map (fun s => s.toLower)).isEmpty
    · have hnil : v.supportedEngines.map (fun s => s.toLower) = [] := by
        simpa using hemp
      simp [resolveEngine, hfind, hnil, enginePreference]
    · simp only [resolveEngine, hfind]
      rw [if_neg hemp]
      have ht0 : truthy none = false := rfl
      rw [ht0, Bool.false_and, if_neg Bool.false_ne_true, Bool.not_false,
        if_pos (rfl : true = true)]
      rfl

/-- Witness for C4 at a concrete input. -/
theorem resolveEngine_substitution_witness :
    ([demoVoice] : List Voice).find? (fun w => w.id == "Joanna") = some demoVoice ∧
      ((demoVoice.supportedEngines = [] → ∀ req, resolveEngine [demoVoice] "Joanna" req = none) ∧
       (∀ e : String,
          (demoVoice.supportedEngines.map (fun s => s.toLower)).contains (e.toLower) = false →
          resolveEngine [demoVoice] "Joanna" (some e) =
            enginePreference (demoVoice.supportedEngines.map (fun s => s.toLower))) ∧
       resolveEngine [demoVoice] "Joanna" none =
         enginePreference (demoVoice.supportedEngines.map (fun s => s.toLower))) :=
  ⟨by decide, resolveEngine_substitution [demoVoice] "Joanna" demoVoice (by decide)⟩

/-- C8: when the catalog lookup of engine resolution fails with any error,
the resolved engine is the caller-requested engine unmodified — it is
not forced to none, so resolver failure never prevents the synthesis
call from being attempted. -/
theorem resolveEngineSafe_error_passthrough (err : String) (voiceId : String)
    (engine : Option String) :
    resolveEngineSafe (Except.error err) voiceId engine = engine := rfl

/-- C9: the synthesis driver rejects every output format outside the fixed
raw set before issuing any remote synthesis call — the result is a
fixed error value, for every remote client — and raises no validation
error for formats inside the set. -/
theorem synthesize_format_validation (client : List Char → SynthParams → List Nat)
    (text : List Char) (voice_id output_format : String)
    (engine language_code : Option String) (sample_rate : Option Nat) (text_type : String) :
    (output_format ≠ "mp3" ∧ output_format ≠ "ogg_vorbis" ∧ output_format ≠ "pcm" →
      synthesize client text voice_id output_format engine language_code sample_rate text_type =
        Except.error formatErrMsg) ∧
    ((output_format = "mp3" ∨ output_format = "ogg_vorbis" ∨ output_format = "pcm") →
      ∃ buffers,
        synthesize client text voice_id output_format engine language_code sample_rate
            text_type = Except.ok buffers) := by
  constructor
  · rintro ⟨h1, h2, h3⟩
    have e1 : (output_format == "mp3") = false := beq_eq_false_iff_ne.mpr h1
    have e2 : (output_format == "ogg_vorbis") = false := beq_eq_false_iff_ne.mpr h2
    have e3 : (output_format == "pcm") = false := beq_eq_false_iff_ne.mpr h3
    simp [synthesize, e1, e2, e3]
  · rintro (h | h | h) <;> subst h <;> exact ⟨_, rfl⟩

/-- Witness for C9 at the concrete format "wav". -/
theorem synthesize_format_validation_witness :
    ("wav" ≠ "mp3" ∧ "wav" ≠ "ogg_vorbis" ∧ "wav" ≠ "pcm") ∧
      synthesize (fun _ _ => []) ("hi".data) "Joanna" "wav" none none none "text" =
        Except.error formatErrMsg :=
  ⟨by decide,
   (synthesize_format_validation (fun _ _ => []) ("hi".data) "Joanna" "wav" none none none
      "text").1 (by decide)⟩
